import Mathlib

/-!
Verification development for the 5Five cricket scraper / pattern matcher.

The definitions below are a shallow embedding of the two source files:

* `src/scrapper/pattern_matcher.py` — the history indexer (first pass of
  `FiveCricketPatternMatcher.analyze_patterns`), the temporal pattern query and
  the annotation pass (second pass of `analyze_patterns`), together with the
  score parser `parse_score` and the column handling of `save_excel`.
* `src/scrapper/scrapper.py` — the change detector
  `Tables247FiveCricketScraper.detect_changes`.

Modelling conventions: timestamps are `Nat` (ISO timestamp strings compare
lexicographically, which is order-isomorphic to their chronology); Python dicts
used as insertion-ordered maps become association lists; pandas row labels are
the row's position in the corpus-ordered frame, so a group's rows are a list
and labels are `List.enum` indices.
-/

set_option autoImplicit false

namespace Bet247

/-- A Python value stored in a dataframe cell: an int, a string, or `None`. -/
inductive PVal where
  | vInt (i : Int)
  | vStr (s : String)
  | vNone
deriving DecidableEq, Repr

/-! ### Python string primitives

Python's `str.split`, `str.startswith`, `str.strip` and `str()` of an int are
modelled structurally on character lists (ASCII scope), so that every
definition evaluates inside the kernel. -/

/-- Helper for `pySplit`: split a character list at every occurrence of the
separator character. -/
def pySplitAux (sep : Char) : List Char → List (List Char)
  | [] => [[]]
  | c :: cs =>
    if c = sep then [] :: pySplitAux sep cs
    else
      match pySplitAux sep cs with
      | [] => [[c]]
      | f :: rest => (c :: f) :: rest

/-- Python `s.split(sep)` for a one-character separator (every separator the
source splits on — `' '`, `'-'`, `'/'`, `'_'` — is one character): the fields
between occurrences of `sep` (`['a', 'b']` for `"a,b"`, `[""]` for `""`). -/
def pySplit (s : String) (sep : Char) : List String :=
  (pySplitAux sep s.toList).map (fun cs => String.mk cs)

/-- Python `s.startswith(pre)`. -/
def pyStartswith (s : String) (pre : String) : Bool :=
  pre.toList.isPrefixOf s.toList

/-- Python `s.strip()` (ASCII whitespace). -/
def pyStrip (s : String) : String :=
  String.mk (((s.toList.dropWhile Char.isWhitespace).reverse.dropWhile
    Char.isWhitespace).reverse)

/-- The decimal digit character for `d < 10`. -/
def digitChar : Nat → Char
  | 0 => '0' | 1 => '1' | 2 => '2' | 3 => '3' | 4 => '4'
  | 5 => '5' | 6 => '6' | 7 => '7' | 8 => '8' | _ => '9'

/-- Helper for `natToString`: fuel-driven base-10 digit expansion. -/
def natToCharsAux : Nat → Nat → List Char → List Char
  | 0, _, acc => acc
  | fuel + 1, n, acc =>
    if n < 10 then digitChar n :: acc
    else natToCharsAux fuel (n / 10) (digitChar (n % 10) :: acc)

/-- Python `str(n)` for a natural number. -/
def natToString (n : Nat) : String :=
  String.mk (natToCharsAux (n + 1) n [])

/-! ### Python `int()` on strings

`parse_score` calls `int(runs)` inside a `try`.  `pyInt` models Python's
`int(s)` for ASCII strings: surrounding whitespace is stripped, an optional
single sign is allowed, and the digits may be separated by single underscores
(no leading, trailing or doubled underscore); anything else raises, modelled
as `none`. -/

/-- Numeric value of a list of decimal digit characters. -/
def digitsVal (cs : List Char) : Nat :=
  cs.foldl (fun n c => n * 10 + (c.toNat - 48)) 0

/-- Checks the tail of a Python int literal: digits with single interior
underscores, each underscore followed by a digit. -/
def pyIntRest : List Char → Bool
  | [] => true
  | '_' :: [] => false
  | '_' :: c :: rest => c.isDigit && pyIntRest rest
  | c :: rest => c.isDigit && pyIntRest rest

/-- Checks a Python int literal body (after the optional sign): nonempty,
starts with a digit, then `pyIntRest`. -/
def pyIntCore : List Char → Bool
  | [] => false
  | c :: rest => c.isDigit && pyIntRest rest

/-- Value of a valid Python int literal body (underscores skipped). -/
def pyIntVal (cs : List Char) : Nat :=
  digitsVal (cs.filter Char.isDigit)

/-- Python `int(s)` on an ASCII string: `some n` on success, `none` when the
call would raise `ValueError`. -/
def pyInt (s : String) : Option Int :=
  match (pyStrip s).toList with
  | '+' :: cs => if pyIntCore cs then some (pyIntVal cs) else none
  | '-' :: cs => if pyIntCore cs then some (-(pyIntVal cs : Int)) else none
  | cs => if pyIntCore cs then some (pyIntVal cs) else none

/-! ### `parse_score` (pattern_matcher.py lines 147–153) -/

/-- A Python value passed to `parse_score`: a string or a non-string. -/
inductive PyScore where
  | pstr (s : String)
  | nonStr
deriving DecidableEq, Repr

/-- Python `s.split(sep)[0]`: the part of `s` before the first occurrence of
`sep` (the whole of `s` when `sep` does not occur). -/
def splitHead (s : String) (sep : Char) : String :=
  (pySplit s sep).headD ""

/-- The token `parse_score` hands to `int()`: before the first space, then
before the first `'-'`, then before the first `'/'`. -/
def leadToken (s : String) : String :=
  splitHead (splitHead (splitHead s ' ') '-') '/'

/-- `parse_score` from pattern_matcher.py: non-strings map to 0; for a string,
the leading token is parsed as a Python int, any failure yielding 0. -/
def parse_score : PyScore → Int
  | .nonStr => 0
  | .pstr s => (pyInt (leadToken s)).getD 0

/-! ### Corpus rows and match groups -/

/-- One corpus record (CSV row) as `analyze_patterns` reads it: the
`Ball_Number` and `Timestamp` columns, the already-stripped card text
(`str(row.get('Card', row.get('Runs',''))).strip()`), the `Team2_Over` /
`Team2_Ball` counters and the two score texts. -/
structure Row where
  ball_number : Nat
  timestamp : Nat
  card : String
  team2_over : Nat
  team2_ball : Nat
  team1_score : String
  team2_score : String
deriving DecidableEq, Repr

/-- One `groupby(Round_ID)` group: the round id and the group's rows in
corpus (post global sort) order; a row's pandas label is its position. -/
structure MatchGroup where
  round_id : String
  rows : List Row
deriving DecidableEq, Repr

/-- Rows of a group paired with their labels (positions in corpus order). -/
def irowsOf (g : MatchGroup) : List (Nat × Row) :=
  g.rows.enum

/-- Stable insertion of a labelled row into a `Ball_Number`-sorted list
(equal keys keep encounter order, as in a stable sort). -/
def insertIRow : List (Nat × Row) → (Nat × Row) → List (Nat × Row)
  | [], r => [r]
  | x :: xs, r =>
    if x.2.ball_number ≤ r.2.ball_number then x :: insertIRow xs r
    else r :: x :: xs

/-- `match_rows.sort_values('Ball_Number')` as a stable insertion sort on
labelled rows. -/
def sortIRows (rows : List (Nat × Row)) : List (Nat × Row) :=
  rows.foldl insertIRow []

/-- A card cell contributes to a sequence iff its stripped text is nonempty
and not the string `"nan"` (`if c and c != 'nan'`). -/
def validCard (c : String) : Bool :=
  c ≠ "" && c ≠ "nan"

/-- The card sequence of a list of labelled rows, in order. -/
def getCards (rows : List (Nat × Row)) : List String :=
  (rows.map (fun p => p.2.card)).filter validCard

/-- A row signals innings 2: `Team2_Ball > 0` or `Team2_Over > 0`. -/
def isInn2Row (r : Row) : Bool :=
  r.team2_ball > 0 || r.team2_over > 0

/-- Consecutive chunks of exactly 6 cards; a trailing partial chunk is
dropped (`chunk = cards[i:i+6]; if len(chunk) == 6`). -/
def chunks6 : List String → List (List String)
  | a :: b :: c :: d :: e :: f :: rest => [a, b, c, d, e, f] :: chunks6 rest
  | _ => []

/-! ### History databases (pattern_matcher.py lines 68–171)

Python dicts mapping a signature to a list of `(timestamp, occurrence_id)`
pairs become insertion-ordered association lists. -/

/-- A signature bucket map: keys in insertion order, each bucket a list of
entries in append order. -/
abbrev Buckets (σ : Type) := List (σ × List (Nat × String))

/-- `if seq not in hist: hist[seq] = []` followed by `hist[seq].append(v)`. -/
def bucketAppend {σ : Type} [DecidableEq σ] (h : Buckets σ) (k : σ) (v : Nat × String) :
    Buckets σ :=
  match h with
  | [] => [(k, [v])]
  | (k', vs) :: rest =>
    if k' = k then (k', vs ++ [v]) :: rest else (k', vs) :: bucketAppend rest k v

/-- `hist.get(key, [])`. -/
def bucketGet {σ : Type} [DecidableEq σ] (h : Buckets σ) (k : σ) : List (Nat × String) :=
  match h with
  | [] => []
  | (k', vs) :: rest => if k' = k then vs else bucketGet rest k

/-- Total number of entries stored across all buckets. -/
def bucketsSize {σ : Type} (h : Buckets σ) : Nat :=
  (h.map (fun p => p.2.length)).sum

/-- The per-match metadata stored in `match_meta` during the first pass.
`inn2_start` is the pandas label of the first innings-2 row (`None` models
the `-1` sentinel). -/
structure MatchMeta where
  start_time : Nat
  inn1_seq : String
  final_score : Int × Int
  full_seq : String
  inn2_start : Option Nat
deriving DecidableEq, Repr

/-- `match_meta[round_id] = {...}` (dict overwrite semantics). -/
def metaSet (m : List (String × MatchMeta)) (k : String) (v : MatchMeta) :
    List (String × MatchMeta) :=
  match m with
  | [] => [(k, v)]
  | (k', v') :: rest =>
    if k' = k then (k, v) :: rest else (k', v') :: metaSet rest k v

/-- `match_meta.get(round_id)`. -/
def metaGet? (m : List (String × MatchMeta)) (k : String) : Option MatchMeta :=
  match m with
  | [] => none
  | (k', v') :: rest => if k' = k then some v' else metaGet? rest k

/-- The four history databases plus `match_meta`. -/
structure HistState where
  hist_overs : Buckets String
  hist_inn1 : Buckets String
  hist_scores : Buckets (Int × Int)
  hist_full : Buckets String
  meta : List (String × MatchMeta)
deriving DecidableEq, Repr

/-- The empty history state. -/
def emptyHist : HistState := ⟨[], [], [], [], []⟩

/-! ### First pass: building the history (lines 83–171) -/

/-- The group's rows sorted by `Ball_Number` (labels carried along). -/
def sortedIRows (g : MatchGroup) : List (Nat × Row) :=
  sortIRows (irowsOf g)

/-- The match start time: the `Timestamp` of the first `Ball_Number`-sorted
row when the corpus has a `Timestamp` column, otherwise the wall-clock time
`now` (`datetime.now().isoformat()`). -/
def startTimeOf (hasTs : Bool) (now : Nat) (g : MatchGroup) : Nat :=
  if hasTs then ((sortedIRows g).head?.map (fun p => p.2.timestamp)).getD 0 else now

/-- The label (`inn2_start_idx`) of the first sorted row showing innings-2
progress; `none` models `-1`. -/
def inn2StartLabel (g : MatchGroup) : Option Nat :=
  ((sortedIRows g).find? (fun p => isInn2Row p.2)).map Prod.fst

/-- `match_rows.index.get_loc(inn2_start_idx)`: the position of that label in
the sorted frame (`0` on the unreachable exception fallback). -/
def inn2Loc (g : MatchGroup) : Option Nat :=
  (inn2StartLabel g).map (fun lbl =>
    ((sortedIRows g).findIdx? (fun p => p.1 = lbl)).getD 0)

/-- The innings-1 card sequence of a group (rows before the split position;
the whole match when no innings-2 row exists). -/
def inn1CardsOf (g : MatchGroup) : List String :=
  match inn2Loc g with
  | some l => getCards ((sortedIRows g).take l)
  | none => getCards (sortedIRows g)

/-- The innings-2 card sequence of a group (rows from the split position on;
empty when no innings-2 row exists). -/
def inn2CardsOf (g : MatchGroup) : List String :=
  match inn2Loc g with
  | some l => getCards ((sortedIRows g).drop l)
  | none => []

/-- The comma-joined innings-1 signature. -/
def inn1SeqOf (g : MatchGroup) : String :=
  String.intercalate "," (inn1CardsOf g)

/-- The full-match signature: innings-1 signature, `"|"`, innings-2 cards. -/
def fullSeqOf (g : MatchGroup) : String :=
  inn1SeqOf g ++ "|" ++ String.intercalate "," (inn2CardsOf g)

/-- The over-level `(signature, (timestamp, over_id))` entries contributed by
one innings of one match: one per complete 6-card chunk, with occurrence id
`f"{round_id}_{innings}_{chunk index + 1}"`. -/
def overEntries (rid : String) (innNum : Nat) (t : Nat) (cards : List String) :
    List (String × (Nat × String)) :=
  (chunks6 cards).enum.map (fun p =>
    let oid := rid ++ "_" ++ natToString innNum ++ "_" ++ natToString (p.1 + 1)
    (String.intercalate "," p.2, (t, oid)))

/-- The two score texts of the last `Ball_Number`-sorted row
(`match_rows.iloc[-1]`); `str(...)` always hands strings over. -/
def lastRowScores (g : MatchGroup) : String × String :=
  match (sortedIRows g).getLast? with
  | some p => (p.2.team1_score, p.2.team2_score)
  | none => ("", "")

/-- The final-score pair of a group: `parse_score` of the two score texts. -/
def finalScoreOf (g : MatchGroup) : Int × Int :=
  (parse_score (.pstr (lastRowScores g).1), parse_score (.pstr (lastRowScores g).2))

/-- Append one over-level `(signature, entry)` pair to the over database. -/
def appendOverEntry (s : HistState) (e : String × (Nat × String)) : HistState :=
  { s with hist_overs := bucketAppend s.hist_overs e.1 e.2 }

/-- One iteration of the first pass (lines 83–171): indexes one match group
into the four history databases and records its metadata. -/
def processMatch (hasTs : Bool) (now : Nat) (st : HistState) (g : MatchGroup) : HistState :=
  let start_time := startTimeOf hasTs now g
  let inn1_cards := inn1CardsOf g
  let inn1_seq := inn1SeqOf g
  let st := if inn1_seq ≠ "" then
      { st with hist_inn1 := bucketAppend st.hist_inn1 inn1_seq (start_time, g.round_id) }
    else st
  let st := (overEntries g.round_id 1 start_time inn1_cards).foldl appendOverEntry st
  let inn2_cards := inn2CardsOf g
  let st := (overEntries g.round_id 2 start_time inn2_cards).foldl appendOverEntry st
  let score_tuple := finalScoreOf g
  let st := { st with hist_scores := bucketAppend st.hist_scores score_tuple (start_time, g.round_id) }
  let full_seq := fullSeqOf g
  let st := if inn1_cards.length + inn2_cards.length > 0 then
      { st with hist_full := bucketAppend st.hist_full full_seq (start_time, g.round_id) }
    else st
  let m : MatchMeta := MatchMeta.mk start_time inn1_seq score_tuple full_seq (inn2StartLabel g)
  { st with meta := metaSet st.meta g.round_id m }

/-- The whole first pass: fold `processMatch` over the corpus groups in scan
order, starting from empty databases (rebuilt from scratch each run). -/
def buildHist (hasTs : Bool) (now : Nat) (corpus : List MatchGroup) : HistState :=
  corpus.foldl (processMatch hasTs now) emptyHist

/-! ### Temporal pattern query (second pass, lines 194–288) -/

/-- Match-level query filter: `[m for m in bucket if m[0] < start_time]`. -/
def priorMatches (bucket : List (Nat × String)) (t0 : Nat) : List (Nat × String) :=
  bucket.filter (fun m => m.1 < t0)

/-- `matches[-1][1] if matches else "None"`. -/
def lastOccur (l : List (Nat × String)) : String :=
  ((l.getLast?).map Prod.snd).getD "None"

/-- The same-match tie-break on an over occurrence id (lines 263–272): split
the id on `'_'`, parse the second and third fields as Python ints, and accept
when `(o_inn, o_num)` precedes `(curr_inn, over_idx)`; any exception (missing
fields or unparseable ints) silently rejects. -/
def overTieOk (curr_inn : Int) (over_idx : Int) (oid : String) : Bool :=
  match pySplit oid '_' with
  | _ :: p1 :: p2 :: _ =>
    match pyInt p1, pyInt p2 with
    | some o_inn, some o_num =>
      o_inn < curr_inn || (o_inn == curr_inn && o_num < over_idx)
    | _, _ => false
  | _ => false

/-- The over-level inclusion test for one bucket entry: strictly earlier
timestamp, or equal timestamp with `oid.startswith(str(round_id))` and the
tie-break accepting. -/
def overIncl (t0 : Nat) (rid : String) (curr_inn : Int) (over_idx : Int)
    (e : Nat × String) : Bool :=
  e.1 < t0 || (e.1 == t0 && pyStartswith e.2 rid && overTieOk curr_inn over_idx e.2)

/-- The over-level `priors` list (lines 255–272): the included occurrence ids
in bucket order. -/
def overPriors (bucket : List (Nat × String)) (t0 : Nat) (rid : String)
    (curr_inn : Int) (over_idx : Int) : List String :=
  bucket.foldl (fun acc e =>
    if overIncl t0 rid curr_inn over_idx e then acc ++ [e.2] else acc) []

/-! ### Annotation pass (lines 173–288) -/

/-- The eight derived per-row values; `.vNone` is the initialised value of a
row the pass never touches. -/
structure Annot where
  over_count : PVal
  over_last : PVal
  inn1_count : PVal
  inn1_last : PVal
  fs_count : PVal
  fs_last : PVal
  full_count : PVal
  full_last : PVal
deriving DecidableEq, Repr

/-- The initialised (`None`) annotation. -/
def annotNone : Annot :=
  ⟨.vNone, .vNone, .vNone, .vNone, .vNone, .vNone, .vNone, .vNone⟩

/-- Overwrite only the two over-level fields of an annotation. -/
def setOver (a : Annot) (cnt lst : PVal) : Annot :=
  { a with over_count := cnt, over_last := lst }

/-- Per-match context for the row loop: the match-level query results and the
data the over-level queries need. -/
structure AnnCtx where
  rid : String
  t0 : Nat
  hist_overs : Buckets String
  inn2_start : Option Nat
  fs_count : Int
  fs_last : String
  inn1_count : Int
  inn1_last : String
  fm_count : Int
  fm_last : String
deriving Repr

/-- `idx >= inn2_start` guarded by `inn2_start != -1`. -/
def isInn2At (inn2_start : Option Nat) (j : Nat) : Bool :=
  match inn2_start with
  | some l => l ≤ j
  | none => false

/-- The row annotation written before the over-completion check (lines
215–244): match-level values, the innings-1 sentinel or computed pair, and
the over-level default `0` / `"None"`. -/
def baseAnnot (ctx : AnnCtx) (j : Nat) : Annot where
  over_count := .vInt 0
  over_last := .vStr "None"
  inn1_count := if isInn2At ctx.inn2_start j then .vInt ctx.inn1_count else .vInt 0
  inn1_last := if isInn2At ctx.inn2_start j then .vStr ctx.inn1_last else .vStr "Current Inn1"
  fs_count := .vInt ctx.fs_count
  fs_last := .vStr ctx.fs_last
  full_count := .vInt ctx.fm_count
  full_last := .vStr ctx.fm_last

/-- The backwards scan of `match_rows.loc[:idx]` (lines 275–281): labels of
the most recent `k` card-bearing rows, given the reversed prefix. -/
def lastCardLabels : List (Nat × Row) → Nat → List Nat
  | [], _ => []
  | (i, r) :: rest, k =>
    if k = 0 then []
    else if validCard r.card then i :: lastCardLabels rest (k - 1)
    else lastCardLabels rest k

/-- Write the over-level count / last-occurrence into the annotation at array
position `i` (a `self.df.at[vi, ...]` pair of writes). -/
def backFillAt (acc : Array Annot) (cnt lst : PVal) (i : Nat) : Array Annot :=
  if h : i < acc.size then acc.set ⟨i, h⟩ (setOver (acc.get ⟨i, h⟩) cnt lst) else acc

/-- One row iteration of the annotation pass (lines 214–288): write this
row's base annotation, update the running card buffer (reset at the
innings-2 start label, then append a valid card), and on a completed over
run the over-level query and back-fill its result into the most recent 6
card-bearing rows. -/
def annotStep (ctx : AnnCtx) (allIRows : List (Nat × Row)) (j : Nat) (r : Row)
    (acc : Array Annot) (cards : List String) : Array Annot × List String :=
  let base := baseAnnot ctx j
  let cards := if ctx.inn2_start = some j then [] else cards
  let cards := if validCard r.card then cards ++ [r.card] else cards
  let acc := acc.push base
  let acc :=
    if cards.length > 0 && cards.length % 6 == 0 then
      let over_seq := String.intercalate "," (cards.drop (cards.length - 6))
      let over_idx : Int := (cards.length / 6 : Nat)
      let curr_inn : Int := if isInn2At ctx.inn2_start j then 2 else 1
      let priors := overPriors (bucketGet ctx.hist_overs over_seq) ctx.t0 ctx.rid curr_inn over_idx
      let o_count : Int := (priors.length : Nat)
      let o_last := (priors.getLast?).getD "None"
      let labels := lastCardLabels ((allIRows.takeWhile (fun p => p.1 ≤ j)).reverse) 6
      labels.foldl (fun a i => backFillAt a (.vInt o_count) (.vStr o_last) i) acc
    else acc
  (acc, cards)

/-- The row loop of the annotation pass over one match (lines 214–288).
`irows` is the remaining labelled rows (labels are corpus-order positions,
ascending), `acc` the annotations written so far, `cards` the running card
buffer. -/
def annotGo (ctx : AnnCtx) (allIRows : List (Nat × Row)) :
    List (Nat × Row) → Array Annot → List String → Array Annot
  | [], acc, _ => acc
  | (j, r) :: rest, acc, cards =>
    let s := annotStep ctx allIRows j r acc cards
    annotGo ctx allIRows rest s.1 s.2

/-- The per-match context assembled at lines 190–210: the three match-level
queries run against the history databases. -/
def annCtxOf (st : HistState) (g : MatchGroup) (meta : MatchMeta) : AnnCtx :=
  let t0 := meta.start_time
  let fs_matches := priorMatches (bucketGet st.hist_scores meta.final_score) t0
  let inn1_matches := priorMatches (bucketGet st.hist_inn1 meta.inn1_seq) t0
  let fm_matches := priorMatches (bucketGet st.hist_full meta.full_seq) t0
  { rid := g.round_id
    t0 := t0
    hist_overs := st.hist_overs
    inn2_start := meta.inn2_start
    fs_count := (fs_matches.length : Nat)
    fs_last := lastOccur fs_matches
    inn1_count := (inn1_matches.length : Nat)
    inn1_last := lastOccur inn1_matches
    fm_count := (fm_matches.length : Nat)
    fm_last := lastOccur fm_matches }

/-- The annotation pass for one match group (lines 186–288): looks up the
match metadata, runs the three match-level queries, then the row loop.  A
group without metadata is skipped (`continue`), leaving the initialised
`None` values. -/
def annotateMatch (st : HistState) (g : MatchGroup) : List Annot :=
  match metaGet? st.meta g.round_id with
  | none => g.rows.map (fun _ => annotNone)
  | some meta =>
    (annotGo (annCtxOf st g meta) (irowsOf g) (irowsOf g) #[] []).toList

/-! ### Dataframe columns: `analyze_patterns` lines 176–184 and `save_excel`
lines 296–311

A dataframe row is an association list from column name to cell value; the
pair order is the dataframe's column order. -/

/-- A dataframe row: column names with cell values, in column order. -/
abbrev RowAssoc := List (String × PVal)

/-- The eight analysis columns, in the order `analyze_patterns` creates them
and `save_excel` re-appends them. -/
def analyCols : List String :=
  ["Pattern_Over_Count", "Pattern_Over_Last_Occur",
   "Pattern_1stInn_Count", "Pattern_1stInn_Last_Occur",
   "Pattern_FinalScore_Count", "Pattern_FinalScore_Last_Occur",
   "Pattern_Match_Card_Count", "Pattern_Match_Card_Last_Occur"]

/-- First cell of a row under a column name (pandas column access). -/
def assocGet? (row : RowAssoc) (k : String) : Option PVal :=
  (row.find? (fun p => p.1 = k)).map Prod.snd

/-- Set a cell: overwrite in place when the column exists, else append the
new column at the end (`df[c] = None` then `df.at[idx, c] = v`). -/
def assocSet (row : RowAssoc) (k : String) (v : PVal) : RowAssoc :=
  if row.any (fun p => p.1 = k) then
    row.map (fun p => if p.1 = k then (k, v) else p)
  else row ++ [(k, v)]

/-- The eight `(column, value)` pairs of an annotation, in `analyCols` order. -/
def annotAssoc (a : Annot) : List (String × PVal) :=
  [("Pattern_Over_Count", a.over_count), ("Pattern_Over_Last_Occur", a.over_last),
   ("Pattern_1stInn_Count", a.inn1_count), ("Pattern_1stInn_Last_Occur", a.inn1_last),
   ("Pattern_FinalScore_Count", a.fs_count), ("Pattern_FinalScore_Last_Occur", a.fs_last),
   ("Pattern_Match_Card_Count", a.full_count), ("Pattern_Match_Card_Last_Occur", a.full_last)]

/-- Net effect of `analyze_patterns` on one row's cells: ensure the eight
columns exist and write the computed values into them. -/
def applyAnnot (row : RowAssoc) (a : Annot) : RowAssoc :=
  (annotAssoc a).foldl (fun r p => assocSet r p.1 p.2) row

/-- `save_excel`'s column reorder (lines 296–309): the original columns minus
the analysis columns, then the analysis columns. -/
def saveReorder (row : RowAssoc) : RowAssoc :=
  let base := row.filter (fun p => !(analyCols.contains p.1))
  let analy := analyCols.filterMap (fun c =>
    ((row.find? (fun p => p.1 = c)).map (fun p => (c, p.2))))
  base ++ analy

/-- One record's full trip through `analyze_patterns` and `save_excel`. -/
def annotatedRow (row : RowAssoc) (a : Annot) : RowAssoc :=
  saveReorder (applyAnnot row a)

end Bet247

namespace Scrapper

open Bet247 (PVal)

/-!
### `Tables247FiveCricketScraper.detect_changes` (scrapper.py lines 730–875)

The detector's mutable fields (`current_innings`, `previous_over_info`,
`previous_score`, `previous_balls`) become an explicit state; the function
returns the changes dict plus the updated state.  The dict's wall-clock
`timestamp` field and the never-assigned `new_card` field are not modelled.
-/

/-- One entry of `match_info['teams']` as extracted (lines 497–538): the name
and score text plus the parsed `(current_over, current_ball)` counters
(`.get('current_over', 0) or 0` resolves missing counters to 0). -/
structure Team where
  name : String
  score : String
  current_over : Nat
  current_ball : Nat
deriving DecidableEq, Repr

/-- One entry of `match_info['ball_by_ball']` (lines 546–555). -/
structure BallGlyph where
  runs : String
  is_four : Bool
  is_six : Bool
  is_wicket : Bool
deriving DecidableEq, Repr

/-- The detector's persistent per-match state. -/
structure TrackState where
  current_innings : Nat
  previous_over_info : Nat × Nat
  previous_score : List Team
  previous_balls : List BallGlyph
deriving DecidableEq, Repr

/-- The `ball_data` dict built for a detected ball (lines 798–809);
`card_runs` is an int or falls back to the runs text. -/
structure BallData where
  runs : String
  card : String
  card_runs : PVal
  ball_position : Nat
  over : Nat
  ball : Nat
  is_four : Bool
  is_six : Bool
  is_wicket : Bool
  is_dot : Bool
deriving DecidableEq, Repr

/-- The `changes` dict returned by one `detect_changes` tick. -/
structure Changes where
  new_balls : List BallData
  score_changed : Bool
  score_details : List Team
  over_completed : Bool
  completed_over_number : Option Nat
  round_id_changed : Bool
  innings_changed : Bool
  new_innings : Option Nat
deriving DecidableEq, Repr

/-- The initialised `changes` dict (lines 732–739). -/
def emptyChanges : Changes :=
  ⟨[], false, [], false, none, false, false, none⟩

/-- The `RUNS_TO_CARD` lookup with default `'?'` (scrapper.py lines 39–49;
only the int keys are reachable from `detect_changes`). -/
def runsToCard : Int → String
  | 0 => "10"
  | 1 => "A"
  | 2 => "2"
  | 3 => "3"
  | 4 => "4"
  | 6 => "6"
  | -1 => "K"
  | _ => "?"

/-- Python `s.isdigit()` for ASCII strings: nonempty and all digits. -/
def pyIsDigit (s : String) : Bool :=
  s.length > 0 && s.toList.all Char.isDigit

/-- The batting team (lines 747–755 / 821–834): team 1 in innings 1, team 2
otherwise; `none` when the list is too short (a missing or falsy team). -/
def battingTeam (innings : Nat) (teams : List Team) : Option Team :=
  if innings = 1 then teams.head? else teams.get? 1

/-- Total balls faced: `over * 6 + ball`. -/
def totalBalls (over ball : Nat) : Nat :=
  over * 6 + ball

/-- The ball-detection block (lines 747–812): builds the single-element
`new_balls` list when the batting team's total-balls counter strictly
increased. -/
def detectNewBalls (st : TrackState) (current_balls : List BallGlyph)
    (current_teams : List Team) : List BallData :=
  match battingTeam st.current_innings current_teams with
  | none => []
  | some bt =>
    let current_over := bt.current_over
    let current_ball := bt.current_ball
    let prev := st.previous_over_info
    if totalBalls current_over current_ball > totalBalls prev.1 prev.2 then
      let last? := current_balls.getLast?
      let runs_display := (last?.map BallGlyph.runs).getD "?"
      let is_four := (last?.map BallGlyph.is_four).getD false
      let is_six := (last?.map BallGlyph.is_six).getD false
      let is_wicket :=
        match last? with
        | some lb => lb.is_wicket || runs_display = "W" || runs_display = "ww"
        | none => false
      let is_dot :=
        match last? with
        | some _ => runs_display = "0"
        | none => false
      let runs_numeric : Option Int :=
        match last? with
        | some _ =>
          if runs_display = "W" || runs_display = "ww" then some (-1)
          else if pyIsDigit runs_display then some (Bet247.digitsVal runs_display.toList)
          else none
        | none => none
      let card_name :=
        if is_wicket then "K"
        else match runs_numeric with
          | some n => runsToCard n
          | none => "?"
      let card_runs : PVal :=
        match runs_numeric with
        | some n => .vInt n
        | none => .vStr runs_display
      [{ runs := runs_display
         card := card_name
         card_runs := card_runs
         ball_position := if current_ball > 0 then current_ball else 6
         over := current_over
         ball := current_ball
         is_four := is_four
         is_six := is_six
         is_wicket := is_wicket
         is_dot := is_dot }]
    else []

/-- One `detect_changes` tick: returns the changes dict and the updated
tracker state. -/
def detect_changes (st : TrackState) (current_balls : List BallGlyph)
    (current_teams : List Team) : Changes × TrackState :=
  let changes := { emptyChanges with new_balls := detectNewBalls st current_balls current_teams }
  -- over-completion block (lines 819–851); also the single update point of
  -- previous_over_info
  let step2 : Changes × (Nat × Nat) :=
    match battingTeam st.current_innings current_teams with
    | none => (changes, st.previous_over_info)
    | some bt =>
      let co := bt.current_over
      let cb := bt.current_ball
      let prev_over := st.previous_over_info.1
      let c :=
        if cb = 0 ∧ prev_over < co ∧ 0 < co then
          { changes with over_completed := true, completed_over_number := some co }
        else changes
      (c, (co, cb))
  let changes := step2.1
  let prev_info := step2.2
  -- score-change and innings-change block (lines 853–873)
  if current_teams ≠ st.previous_score then
    let changes := { changes with score_changed := true, score_details := current_teams }
    let step3 : Changes × Nat × (Nat × Nat) :=
      match current_teams.get? 1 with
      | some t2 =>
        if (0 < t2.current_over ∨ 0 < t2.current_ball) ∧ st.current_innings = 1 then
          ({ changes with innings_changed := true, new_innings := some 2 }, 2, (0, 0))
        else (changes, st.current_innings, prev_info)
      | none => (changes, st.current_innings, prev_info)
    (step3.1,
     { current_innings := step3.2.1
       previous_over_info := step3.2.2
       previous_score := current_teams
       previous_balls := current_balls })
  else
    (changes,
     { st with previous_over_info := prev_info, previous_balls := current_balls })

end Scrapper

namespace Bet247

/-! ### Specification-side definitions (§4.5 of the spec)

These follow the spec's words, for comparison with the code's query: "the
`occurrence_id` of the entry with the greatest timestamp among included
entries (ties broken by corpus scan order — last one encountered in a
timestamp-ascending … walk), or a sentinel `"none"` value if the set is
empty". -/

/-- Spec-side: the entry with the greatest timestamp in a walk, a tie going
to the later entry. -/
def specArgmax : List (Nat × String) → Option (Nat × String)
  | [] => none
  | e :: rest =>
    match specArgmax rest with
    | none => some e
    | some b => if e.1 ≤ b.1 then some b else some e

/-- Spec-side: the `occurrence_id` of `specArgmax`, or `"None"` when the
included set is empty. -/
def specGreatestLast (l : List (Nat × String)) : String :=
  ((specArgmax l).map Prod.snd).getD "None"

/-- Every bucket of the map is in nondecreasing timestamp order and every
stored entry's timestamp is at most `t`. -/
def bucketSortedLE {σ : Type} [DecidableEq σ] (h : Buckets σ) (t : Nat) : Prop :=
  ∀ k : σ, (bucketGet h k).Pairwise (fun a b => a.1 ≤ b.1)
    ∧ ∀ e ∈ bucketGet h k, e.1 ≤ t

/-- `bucketSortedLE` for all four history databases at once. -/
def histSortedLE (st : HistState) (t : Nat) : Prop :=
  bucketSortedLE st.hist_overs t ∧ bucketSortedLE st.hist_inn1 t
    ∧ bucketSortedLE st.hist_scores t ∧ bucketSortedLE st.hist_full t

/-! ### Projections and concrete corpora used by the theorems -/

/-- The six annotation fields the over-level back-fill never touches. -/
def annotRest (a : Annot) : PVal × PVal × PVal × PVal × PVal × PVal :=
  (a.inn1_count, a.inn1_last, a.fs_count, a.fs_last, a.full_count, a.full_last)

/-- The two innings-1 annotation fields. -/
def annotInn1 (a : Annot) : PVal × PVal :=
  (a.inn1_count, a.inn1_last)

/-- A corpus row with the given ball number, timestamp, card and scores. -/
def mkRow (bn t : Nat) (c : String) (t2o t2b : Nat) (s1 s2 : String) : Row :=
  ⟨bn, t, c, t2o, t2b, s1, s2⟩

/-- Example: a match with round id `"1"` and twelve identical cards (two
identical completed overs), at timestamp 5. -/
def exG1 : MatchGroup :=
  ⟨"1", (List.range 12).map (fun i => mkRow (i + 1) 5 "A" 0 0 "10-2 (2.0)" "")⟩

/-- Example: a match with round id `"12"` — a string extension of `"1"` —
with one over identical to `exG1`'s, at the same timestamp 5. -/
def exG12 : MatchGroup :=
  ⟨"12", (List.range 6).map (fun i => mkRow (i + 1) 5 "A" 0 0 "10-2 (1.0)" "")⟩

/-- Example: an earlier match (timestamp 1) whose innings-1 card sequence is
`["c1"]`. -/
def exGA : MatchGroup := ⟨"rA", [mkRow 1 1 "c1" 0 0 "" ""]⟩

/-- Example: a later match (timestamp 2) with the same innings-1 sequence
`["c1"]` that reaches innings 2 at its second row. -/
def exGB : MatchGroup :=
  ⟨"rB", [mkRow 1 2 "c1" 0 0 "" "", mkRow 2 2 "c2" 0 1 "" ""]⟩

/-- Example: a match whose rows all show innings-2 progress from the first
row on, so its innings-1 card sequence is empty while innings 2 has one
complete over. -/
def exG3 : MatchGroup :=
  ⟨"3", (List.range 6).map (fun i => mkRow (i + 1) 9 "x" 0 1 "" "")⟩

/-- Example: a one-row match whose score texts are unparseable. -/
def exG5 : MatchGroup := ⟨"5", [mkRow 1 7 "" 0 0 "abc" "xyz"]⟩

/-- Example: a later well-formed match following `exG5` in the corpus. -/
def exG6 : MatchGroup := ⟨"6", [mkRow 1 8 "y" 0 0 "20-1 (2.0)" "15-3 (2.0)"]⟩

/-- The history databases built over `exG1` and `exG12`. -/
def exHistC1 : HistState := buildHist true 0 [exG1, exG12]

/-- The history databases built over `exGA` and `exGB`. -/
def exHistC4 : HistState := buildHist true 0 [exGA, exGB]

end Bet247

namespace Bet247

/-! ## Theorems -/

theorem specArgmax_mem {l : List (Nat × String)} {b : Nat × String}
    (h : specArgmax l = some b) : b ∈ l := by
  induction l with
  | nil => simp [specArgmax] at h
  | cons e rest ih =>
    simp only [specArgmax] at h
    cases hr : specArgmax rest with
    | none => rw [hr] at h; simp at h; simp [h]
    | some b' =>
      rw [hr] at h
      by_cases hle : e.1 ≤ b'.1
      · simp [hle] at h; subst h; exact List.mem_cons_of_mem _ (ih hr)
      · simp [hle] at h; simp [h]

theorem specArgmax_of_sorted {l : List (Nat × String)}
    (h : l.Pairwise (fun a b => a.1 ≤ b.1)) : specArgmax l = l.getLast? := by
  induction l with
  | nil => rfl
  | cons e rest ih =>
    rcases List.pairwise_cons.mp h with ⟨h1, h2⟩
    cases rest with
    | nil => rfl
    | cons r rs =>
      have ih' : specArgmax (r :: rs) = (r :: rs).getLast? := ih h2
      cases hgl : (r :: rs).getLast? with
      | none =>
        have hs : (r :: rs).getLast?.isSome := List.getLast?_isSome.mpr (by simp)
        rw [hgl] at hs
        simp at hs
      | some b =>
        have hb : b ∈ r :: rs := List.mem_of_getLast?_eq_some hgl
        have hle : e.1 ≤ b.1 := h1 b hb
        have hstep : specArgmax (e :: r :: rs)
            = match specArgmax (r :: rs) with
              | none => some e
              | some b => if e.1 ≤ b.1 then some b else some e := rfl
        rw [hstep, ih', hgl]
        simp [hle, List.getLast?_cons_cons, hgl]

theorem foldl_if_append (p : Nat × String → Bool) (l : List (Nat × String)) :
    ∀ acc : List String,
      l.foldl (fun acc e => if p e then acc ++ [e.2] else acc) acc
        = acc ++ (l.filter p).map Prod.snd := by
  induction l with
  | nil => intro acc; simp
  | cons e rest ih =>
    intro acc
    by_cases hp : p e
    · simp only [List.foldl_cons, if_pos hp, ih, List.filter_cons_of_pos hp,
        List.map_cons, List.append_assoc, List.singleton_append]
    · simp only [List.foldl_cons, if_neg hp, ih, List.filter_cons_of_neg hp]

theorem overPriors_eq_filter (bucket : List (Nat × String)) (t0 : Nat)
    (rid : String) (ci oi : Int) :
    overPriors bucket t0 rid ci oi
      = (bucket.filter (overIncl t0 rid ci oi)).map Prod.snd := by
  simpa using foldl_if_append (overIncl t0 rid ci oi) bucket []

theorem querySpec_of_sorted_bucket (bucket : List (Nat × String)) (t0 : Nat)
    (rid : String) (ci oi : Int)
    (hsort : bucket.Pairwise (fun a b => a.1 ≤ b.1)) :
    (priorMatches bucket t0).length = (bucket.filter (fun e => e.1 < t0)).length
    ∧ lastOccur (priorMatches bucket t0) = specGreatestLast (priorMatches bucket t0)
    ∧ (overPriors bucket t0 rid ci oi).length
        = (bucket.filter (overIncl t0 rid ci oi)).length
    ∧ ((overPriors bucket t0 rid ci oi).getLast?).getD "None"
        = specGreatestLast (bucket.filter (overIncl t0 rid ci oi)) := by
  refine ⟨rfl, ?_, ?_, ?_⟩
  · have hs : (priorMatches bucket t0).Pairwise (fun a b => a.1 ≤ b.1) :=
      hsort.filter _
    simp [lastOccur, specGreatestLast, specArgmax_of_sorted hs]
  · rw [overPriors_eq_filter, List.length_map]
  · have hs : (bucket.filter (overIncl t0 rid ci oi)).Pairwise (fun a b => a.1 ≤ b.1) :=
      hsort.filter _
    rw [overPriors_eq_filter, List.getLast?_map,
      specGreatestLast, specArgmax_of_sorted hs]

end Bet247

namespace Bet247

/-- **C1.** The claim fails on the code at the over granularity: the
same-match check is `oid.startswith(str(round_id))`, a string-prefix test, so
for the target match `"1"` the over `"12_1_1"` of the *different* match
`"12"` — same timestamp, same over signature — passes the tie-break and is
included (`count = 2`, `last = "12_1_1"` instead of `count = 1`). -/
theorem claim_C1_startswith_includes_other_match :
    exG1.round_id ≠ exG12.round_id
    ∧ startTimeOf true 0 exG12 = startTimeOf true 0 exG1
    ∧ bucketGet exHistC1.hist_overs "A,A,A,A,A,A"
        = [(5, "1_1_1"), (5, "1_1_2"), (5, "12_1_1")]
    ∧ overPriors (bucketGet exHistC1.hist_overs "A,A,A,A,A,A") 5 "1" 1 2
        = ["1_1_1", "12_1_1"]
    ∧ ((annotateMatch exHistC1 exG1).get? 11).map (fun a => (a.over_count, a.over_last))
        = some (.vInt 2, .vStr "12_1_1") := by
  decide

theorem processMatch_true_now (n1 n2 : Nat) (st : HistState) (g : MatchGroup) :
    processMatch true n1 st g = processMatch true n2 st g := by
  simp [processMatch, startTimeOf]

theorem foldl_processMatch_true_now (n1 n2 : Nat) :
    ∀ (corpus : List MatchGroup) (st : HistState),
      corpus.foldl (processMatch true n1) st = corpus.foldl (processMatch true n2) st := by
  intro corpus
  induction corpus with
  | nil => intro st; rfl
  | cons g rest ih =>
    intro st
    simp only [List.foldl_cons, processMatch_true_now n1 n2 st g, ih]

/-- **C8 (amended).** For every corpus that has a `Timestamp` column,
rebuilding the indices is a deterministic function of the corpus alone: the
wall-clock parameter is never consulted, so two runs agree on all four
history databases (and the metadata). -/
theorem claim_C8_deterministic_with_timestamp (n1 n2 : Nat) (corpus : List MatchGroup) :
    buildHist true n1 corpus = buildHist true n2 corpus := by
  simpa [buildHist] using foldl_processMatch_true_now n1 n2 corpus emptyHist

/-- **C8 (counterexample).** Without a `Timestamp` column the indexer stores
`datetime.now()` as each match's start time, so two runs at different clock
readings produce different final-score index contents: the claim's
"for every corpus" determinism fails. -/
theorem claim_C8_counterexample :
    (buildHist false 1 [exG5]).hist_scores ≠ (buildHist false 2 [exG5]).hist_scores := by
  decide

theorem bucketsSize_bucketAppend {σ : Type} [DecidableEq σ] (h : Buckets σ)
    (k : σ) (v : Nat × String) :
    bucketsSize (bucketAppend h k v) = bucketsSize h + 1 := by
  induction h with
  | nil => simp [bucketAppend, bucketsSize]
  | cons p rest ih =>
    obtain ⟨k', vs⟩ := p
    by_cases hk : k' = k
    · simp only [bucketAppend, if_pos hk, bucketsSize, List.map_cons, List.sum_cons,
        List.length_append, List.length_singleton]
      omega
    · simp only [bucketAppend, if_neg hk, bucketsSize, List.map_cons, List.sum_cons] at *
      omega

theorem foldl_appendOverEntry_hist_inn1 (l : List (String × (Nat × String))) :
    ∀ s : HistState, (l.foldl appendOverEntry s).hist_inn1 = s.hist_inn1 := by
  induction l with
  | nil => intro s; rfl
  | cons e rest ih => intro s; rw [List.foldl_cons, ih]; rfl

theorem foldl_appendOverEntry_hist_scores (l : List (String × (Nat × String))) :
    ∀ s : HistState, (l.foldl appendOverEntry s).hist_scores = s.hist_scores := by
  induction l with
  | nil => intro s; rfl
  | cons e rest ih => intro s; rw [List.foldl_cons, ih]; rfl

theorem foldl_appendOverEntry_hist_full (l : List (String × (Nat × String))) :
    ∀ s : HistState, (l.foldl appendOverEntry s).hist_full = s.hist_full := by
  induction l with
  | nil => intro s; rfl
  | cons e rest ih => intro s; rw [List.foldl_cons, ih]; rfl

theorem foldl_appendOverEntry_meta (l : List (String × (Nat × String))) :
    ∀ s : HistState, (l.foldl appendOverEntry s).meta = s.meta := by
  induction l with
  | nil => intro s; rfl
  | cons e rest ih => intro s; rw [List.foldl_cons, ih]; rfl

theorem foldl_appendOverEntry_size (l : List (String × (Nat × String))) :
    ∀ s : HistState,
      bucketsSize (l.foldl appendOverEntry s).hist_overs
        = bucketsSize s.hist_overs + l.length := by
  induction l with
  | nil => intro s; simp
  | cons e rest ih =>
    intro s
    rw [List.foldl_cons, ih]
    show bucketsSize (bucketAppend s.hist_overs e.1 e.2) + rest.length = _
    rw [bucketsSize_bucketAppend]
    simp only [List.length_cons]
    omega

theorem processMatch_hist_scores (hasTs : Bool) (now : Nat) (st : HistState) (g : MatchGroup) :
    (processMatch hasTs now st g).hist_scores
      = bucketAppend st.hist_scores (finalScoreOf g) (startTimeOf hasTs now g, g.round_id) := by
  simp only [processMatch]
  split <;>
    simp only [foldl_appendOverEntry_hist_scores] <;>
    split <;>
    rfl

theorem processMatch_hist_inn1 (hasTs : Bool) (now : Nat) (st : HistState) (g : MatchGroup) :
    (processMatch hasTs now st g).hist_inn1
      = if inn1SeqOf g ≠ "" then
          bucketAppend st.hist_inn1 (inn1SeqOf g) (startTimeOf hasTs now g, g.round_id)
        else st.hist_inn1 := by
  simp only [processMatch]
  split <;>
    simp only [foldl_appendOverEntry_hist_inn1] <;>
    split <;>
    simp_all

theorem processMatch_hist_full (hasTs : Bool) (now : Nat) (st : HistState) (g : MatchGroup) :
    (processMatch hasTs now st g).hist_full
      = if (inn1CardsOf g).length + (inn2CardsOf g).length > 0 then
          bucketAppend st.hist_full (fullSeqOf g) (startTimeOf hasTs now g, g.round_id)
        else st.hist_full := by
  simp only [processMatch]
  split <;>
    simp only [foldl_appendOverEntry_hist_full] <;>
    split <;>
    simp_all

theorem overEntries_length (rid : String) (innNum : Nat) (t : Nat) (cards : List String) :
    (overEntries rid innNum t cards).length = (chunks6 cards).length := by
  simp [overEntries]

theorem processMatch_hist_overs_size (hasTs : Bool) (now : Nat) (st : HistState)
    (g : MatchGroup) :
    bucketsSize (processMatch hasTs now st g).hist_overs
      = bucketsSize st.hist_overs + (chunks6 (inn1CardsOf g)).length
          + (chunks6 (inn2CardsOf g)).length := by
  simp only [processMatch]
  split <;>
    split <;>
    simp [foldl_appendOverEntry_size, overEntries_length]

/-- **C3 (amended).** A match whose innings-1 card sequence is empty adds no
first-innings entry; it adds a full-match entry exactly when its innings-2
card sequence is nonempty (the entry's innings-1 part being empty), and it
still adds one final-score entry and one over entry per complete innings-2
6-card chunk. -/
theorem claim_C3_empty_inn1 (hasTs : Bool) (now : Nat) (st : HistState) (g : MatchGroup)
    (h : inn1CardsOf g = []) :
    (processMatch hasTs now st g).hist_inn1 = st.hist_inn1
    ∧ (inn2CardsOf g = [] → (processMatch hasTs now st g).hist_full = st.hist_full)
    ∧ (inn2CardsOf g ≠ [] →
        bucketsSize (processMatch hasTs now st g).hist_full = bucketsSize st.hist_full + 1)
    ∧ bucketsSize (processMatch hasTs now st g).hist_scores = bucketsSize st.hist_scores + 1
    ∧ bucketsSize (processMatch hasTs now st g).hist_overs
        = bucketsSize st.hist_overs + (chunks6 (inn2CardsOf g)).length := by
  have hseq : inn1SeqOf g = "" := by rw [inn1SeqOf, h]; rfl
  refine ⟨?_, ?_, ?_, ?_, ?_⟩
  · rw [processMatch_hist_inn1, if_neg (by simp [hseq])]
  · intro h2
    rw [processMatch_hist_full, if_neg (by simp [h, h2])]
  · intro h2
    rw [processMatch_hist_full, if_pos (by
      simp only [h, List.length_nil, Nat.zero_add]
      exact List.length_pos.mpr h2), bucketsSize_bucketAppend]
  · rw [processMatch_hist_scores, bucketsSize_bucketAppend]
  · rw [processMatch_hist_overs_size, h]
    rfl

/-- Witness for C3 at the concrete empty-innings-1 match `exG3`. -/
theorem claim_C3_witness :
    inn1CardsOf exG3 = []
    ∧ (processMatch true 0 emptyHist exG3).hist_inn1 = emptyHist.hist_inn1
    ∧ bucketsSize (processMatch true 0 emptyHist exG3).hist_scores
        = bucketsSize emptyHist.hist_scores + 1
    ∧ bucketsSize (processMatch true 0 emptyHist exG3).hist_overs
        = bucketsSize emptyHist.hist_overs + (chunks6 (inn2CardsOf exG3)).length
    ∧ bucketsSize (processMatch true 0 emptyHist exG3).hist_full
        = bucketsSize emptyHist.hist_full + 1 :=
  have h := claim_C3_empty_inn1 true 0 emptyHist exG3 (by decide)
  ⟨by decide, h.1, h.2.2.2.1, h.2.2.2.2, h.2.2.1 (by decide)⟩

/-- **C3 (counterexample).** The claim states an empty-innings-1 match adds
*no* full-match entry, but `exG3` (whose innings-1 sequence is empty and
whose innings-2 cards are `x,x,x,x,x,x`) does get a full-match entry, under
the signature `"|x,x,x,x,x,x"`. -/
theorem claim_C3_counterexample :
    inn1CardsOf exG3 = []
    ∧ (buildHist true 0 [exG3]).hist_inn1 = []
    ∧ (buildHist true 0 [exG3]).hist_full = [("|x,x,x,x,x,x", [(9, "3")])] := by
  decide

theorem bucketGet_bucketAppend_self {σ : Type} [DecidableEq σ] (h : Buckets σ)
    (k : σ) (v : Nat × String) :
    bucketGet (bucketAppend h k v) k = bucketGet h k ++ [v] := by
  induction h with
  | nil => simp [bucketAppend, bucketGet]
  | cons p rest ih =>
    obtain ⟨k', vs⟩ := p
    by_cases hk : k' = k
    · simp [bucketAppend, bucketGet, hk]
    · simp [bucketAppend, bucketGet, hk, ih]

/-- **C5 (amended).** A corpus record with an unparseable score is *not*
excluded: its final-score key degrades to `(0, 0)` and the record is indexed
there; the indexing pass is not aborted (the fold is total and every later
group is still processed). -/
theorem claim_C5_malformed_record_indexed (hasTs : Bool) (now : Nat) (st : HistState)
    (g : MatchGroup)
    (h1 : pyInt (leadToken (lastRowScores g).1) = none)
    (h2 : pyInt (leadToken (lastRowScores g).2) = none) :
    finalScoreOf g = (0, 0)
    ∧ bucketGet ((processMatch hasTs now st g).hist_scores) (0, 0)
        = bucketGet st.hist_scores (0, 0) ++ [(startTimeOf hasTs now g, g.round_id)] := by
  have hfs : finalScoreOf g = (0, 0) := by
    simp [finalScoreOf, parse_score, h1, h2]
  refine ⟨hfs, ?_⟩
  rw [processMatch_hist_scores, hfs, bucketGet_bucketAppend_self]

/-- Witness for C5 at the concrete malformed record `exG5`. -/
theorem claim_C5_witness :
    finalScoreOf exG5 = (0, 0)
    ∧ bucketGet ((processMatch true 0 emptyHist exG5).hist_scores) (0, 0)
        = bucketGet emptyHist.hist_scores (0, 0) ++ [(7, "5")] :=
  claim_C5_malformed_record_indexed true 0 emptyHist exG5 (by decide) (by decide)

/-- **C5 (counterexample).** The claim says a record with an unparseable
score is excluded from all four indices; in fact `exG5` (scores `"abc"` /
`"xyz"`) is indexed in the final-score database under `(0, 0)`, and the pass
continues: the later well-formed match `exG6` is indexed under `(20, 15)`. -/
theorem claim_C5_counterexample :
    parse_score (.pstr "abc") = 0
    ∧ bucketGet (buildHist true 0 [exG5, exG6]).hist_scores (0, 0) = [(7, "5")]
    ∧ bucketGet (buildHist true 0 [exG5, exG6]).hist_scores (20, 15) = [(8, "6")] := by
  decide

/-- **C10.** `parse_score` is total: a non-string yields 0, a string whose
leading token (before `' '`, then before `'-'` and `'/'`) is not a parseable
Python int yields 0; consequently a match with unparseable score texts is
indexed under the final-score key `(0, 0)` rather than dropped. -/
theorem claim_C10_parse_score_total :
    parse_score .nonStr = 0
    ∧ (∀ s : String, pyInt (leadToken s) = none → parse_score (.pstr s) = 0)
    ∧ (∀ (hasTs : Bool) (now : Nat) (st : HistState) (g : MatchGroup),
        pyInt (leadToken (lastRowScores g).1) = none →
        pyInt (leadToken (lastRowScores g).2) = none →
        (bucketGet ((processMatch hasTs now st g).hist_scores) (0, 0)).length
          = (bucketGet st.hist_scores (0, 0)).length + 1) := by
  refine ⟨rfl, ?_, ?_⟩
  · intro s hs
    simp [parse_score, hs]
  · intro hasTs now st g h1 h2
    have hfs : finalScoreOf g = (0, 0) := by
      simp [finalScoreOf, parse_score, h1, h2]
    rw [processMatch_hist_scores, hfs, bucketGet_bucketAppend_self]
    simp

/-- Witness for C10 at the concrete inputs `"abc"` and `exG5`. -/
theorem claim_C10_witness :
    parse_score (.pstr "abc") = 0
    ∧ (bucketGet ((processMatch true 0 emptyHist exG5).hist_scores) (0, 0)).length
        = (bucketGet emptyHist.hist_scores (0, 0)).length + 1 :=
  ⟨claim_C10_parse_score_total.2.1 "abc" (by decide),
   claim_C10_parse_score_total.2.2 true 0 emptyHist exG5 (by decide) (by decide)⟩

end Bet247

namespace Scrapper

theorem detect_changes_new_balls (st : TrackState) (b : List BallGlyph) (t : List Team) :
    (detect_changes st b t).1.new_balls = detectNewBalls st b t := by
  simp only [detect_changes]
  cases hbt : battingTeam st.current_innings t <;>
    simp only [hbt] <;>
    repeat (first | rfl | split)

theorem detect_changes_over_completed (st : TrackState) (b : List BallGlyph) (t : List Team) :
    ((detect_changes st b t).1.over_completed, (detect_changes st b t).1.completed_over_number)
      = match battingTeam st.current_innings t with
        | none => (false, none)
        | some bt =>
          if bt.current_ball = 0 ∧ st.previous_over_info.1 < bt.current_over
              ∧ 0 < bt.current_over
          then (true, some bt.current_over) else (false, none) := by
  simp only [detect_changes]
  cases hbt : battingTeam st.current_innings t <;>
    simp only [hbt] <;>
    repeat (first | rfl | split)

theorem detectNewBalls_length (st : TrackState) (b : List BallGlyph) (t : List Team) :
    (detectNewBalls st b t).length
      = match battingTeam st.current_innings t with
        | none => 0
        | some bt =>
          if totalBalls st.previous_over_info.1 st.previous_over_info.2
              < totalBalls bt.current_over bt.current_ball
          then 1 else 0 := by
  simp only [detectNewBalls]
  cases hbt : battingTeam st.current_innings t with
  | none => rfl
  | some bt =>
    simp only [hbt]
    split
    · simp_all [totalBalls]
    · simp_all [totalBalls]

/-- **C6 (amended).** With a batting team present, a tick emits the (single)
`OverCompleted` event iff the batting team's ball counter is 0 and its over
counter strictly increased to a positive value — the code tests
`current_over > 0`, not a positive *previous* over counter — and the event
carries `over_number = current_over`. -/
theorem claim_C6_over_completed (st : TrackState) (b : List BallGlyph) (t : List Team)
    (bt : Team) (h : battingTeam st.current_innings t = some bt) :
    ((detect_changes st b t).1.over_completed = true
      ↔ bt.current_ball = 0 ∧ st.previous_over_info.1 < bt.current_over
          ∧ 0 < bt.current_over)
    ∧ ((detect_changes st b t).1.over_completed = true →
        (detect_changes st b t).1.completed_over_number = some bt.current_over) := by
  have hoc := detect_changes_over_completed st b t
  simp only [h] at hoc
  by_cases hc : bt.current_ball = 0 ∧ st.previous_over_info.1 < bt.current_over
      ∧ 0 < bt.current_over
  · rw [if_pos hc] at hoc
    have h1 := congrArg Prod.fst hoc
    have h2 := congrArg Prod.snd hoc
    exact ⟨⟨fun _ => hc, fun _ => h1⟩, fun _ => h2⟩
  · rw [if_neg hc] at hoc
    have h1 := congrArg Prod.fst hoc
    simp only at h1
    rw [h1]
    exact ⟨⟨fun hfalse => absurd hfalse (by simp), fun hcond => absurd hcond hc⟩,
      fun hfalse => absurd hfalse (by simp)⟩

/-- Witness for C6: the `(over=2, ball=6)` → `(over=3, ball=0)` scenario
yields the `OverCompleted` event with `over_number = 3`. -/
theorem claim_C6_witness :
    (detect_changes ⟨1, (2, 6), [], []⟩ [] [⟨"AUS", "20-1 (3.0)", 3, 0⟩]).1.over_completed = true
    ∧ (detect_changes ⟨1, (2, 6), [], []⟩ []
        [⟨"AUS", "20-1 (3.0)", 3, 0⟩]).1.completed_over_number = some 3 :=
  have h := claim_C6_over_completed ⟨1, (2, 6), [], []⟩ []
    [⟨"AUS", "20-1 (3.0)", 3, 0⟩] ⟨"AUS", "20-1 (3.0)", 3, 0⟩ rfl
  have hoc := h.1.mpr (by decide)
  ⟨hoc, h.2 hoc⟩

/-- **C6 (counterexample).** The claim requires a *positive previous* over
counter, but on the transition `(over=0, ball=5)` → `(over=1, ball=0)` the
code emits `OverCompleted` with `over_number = 1` although the previous over
counter was 0. -/
theorem claim_C6_counterexample :
    (detect_changes ⟨1, (0, 5), [], []⟩ [] [⟨"AUS", "7-0 (1.0)", 1, 0⟩]).1.over_completed = true
    ∧ (detect_changes ⟨1, (0, 5), [], []⟩ []
        [⟨"AUS", "7-0 (1.0)", 1, 0⟩]).1.completed_over_number = some 1
    ∧ ¬ 0 < (TrackState.mk 1 (0, 5) [] []).previous_over_info.1 := by
  decide

/-- **C7.** Each tick emits at most one `BallPlayed` event; with a batting
team present it emits exactly one iff the total-balls-faced counter
(`over*6 + ball`) strictly increased since the previous tick, and a tick with
a nonzero current ball counter emits no `OverCompleted` event. -/
theorem claim_C7_ball_played (st : TrackState) (b : List BallGlyph) (t : List Team) :
    ((detect_changes st b t).1.new_balls.length ≤ 1)
    ∧ (∀ bt : Team, battingTeam st.current_innings t = some bt →
        (((detect_changes st b t).1.new_balls.length = 1)
          ↔ totalBalls st.previous_over_info.1 st.previous_over_info.2
              < totalBalls bt.current_over bt.current_ball)
        ∧ (bt.current_ball ≠ 0 → (detect_changes st b t).1.over_completed = false)) := by
  have hnb := detect_changes_new_balls st b t
  constructor
  · have hlen := detectNewBalls_length st b t
    rw [hnb, hlen]
    cases hb2 : battingTeam st.current_innings t <;> simp only [hb2]
    · omega
    · split <;> omega
  · intro bt hbt
    have hlen := detectNewBalls_length st b t
    simp only [hbt] at hlen
    constructor
    · rw [hnb, hlen]
      split <;> simp_all
    · intro hball
      have hoc := detect_changes_over_completed st b t
      simp only [hbt] at hoc
      rw [if_neg (by simp [hball])] at hoc
      have h1 := congrArg Prod.fst hoc
      simpa using h1

/-- Witness for C7: the `(over=2, ball=4)` → `(over=2, ball=5)` scenario
yields exactly one `BallPlayed` and no `OverCompleted`. -/
theorem claim_C7_witness :
    (detect_changes ⟨1, (2, 4), [], []⟩ [⟨"4", true, false, false⟩]
        [⟨"AUS", "39-1 (2.5)", 2, 5⟩]).1.new_balls.length = 1
    ∧ (detect_changes ⟨1, (2, 4), [], []⟩ [⟨"4", true, false, false⟩]
        [⟨"AUS", "39-1 (2.5)", 2, 5⟩]).1.over_completed = false :=
  have h := (claim_C7_ball_played ⟨1, (2, 4), [], []⟩ [⟨"4", true, false, false⟩]
    [⟨"AUS", "39-1 (2.5)", 2, 5⟩]).2 ⟨"AUS", "39-1 (2.5)", 2, 5⟩ rfl
  ⟨h.1.mpr (by decide), h.2 (by decide)⟩

end Scrapper

namespace Bet247

theorem annotRest_setOver (a : Annot) (c l : PVal) :
    annotRest (setOver a c l) = annotRest a := rfl

theorem backFillAt_size (acc : Array Annot) (c l : PVal) (i : Nat) :
    (backFillAt acc c l i).size = acc.size := by
  unfold backFillAt
  split <;> simp

theorem backFillAt_get_rest (acc : Array Annot) (c l : PVal) (i j : Nat) :
    ((backFillAt acc c l i)[j]?).map annotRest = (acc[j]?).map annotRest := by
  unfold backFillAt
  split
  · rename_i h
    by_cases hj : i = j
    · subst hj
      rw [Array.getElem?_set_eq (i := ⟨i, h⟩), Array.getElem?_eq_getElem h]
      rfl
    · rw [Array.getElem?_set_ne (i := ⟨i, h⟩) _ _ hj]
  · rfl

theorem foldl_backFillAt_size (c l : PVal) (ls : List Nat) :
    ∀ acc : Array Annot, (ls.foldl (fun a i => backFillAt a c l i) acc).size = acc.size := by
  induction ls with
  | nil => intro acc; rfl
  | cons i rest ih => intro acc; rw [List.foldl_cons, ih, backFillAt_size]

theorem foldl_backFillAt_get_rest (c l : PVal) (ls : List Nat) :
    ∀ (acc : Array Annot) (j : Nat),
      ((ls.foldl (fun a i => backFillAt a c l i) acc)[j]?).map annotRest
        = (acc[j]?).map annotRest := by
  induction ls with
  | nil => intro acc j; rfl
  | cons i rest ih => intro acc j; rw [List.foldl_cons, ih, backFillAt_get_rest]

theorem annotStep_fst_size (ctx : AnnCtx) (all : List (Nat × Row)) (j : Nat) (r : Row)
    (acc : Array Annot) (cards : List String) :
    (annotStep ctx all j r acc cards).1.size = acc.size + 1 := by
  simp only [annotStep]
  repeat' split
  all_goals simp [foldl_backFillAt_size]

theorem annotStep_get_rest (ctx : AnnCtx) (all : List (Nat × Row)) (j : Nat) (r : Row)
    (acc : Array Annot) (cards : List String) (k : Nat) :
    ((annotStep ctx all j r acc cards).1[k]?).map annotRest
      = ((acc.push (baseAnnot ctx j))[k]?).map annotRest := by
  simp only [annotStep]
  repeat' split
  all_goals simp [foldl_backFillAt_get_rest]

theorem annotGo_size (ctx : AnnCtx) (all : List (Nat × Row)) :
    ∀ (rest : List (Nat × Row)) (acc : Array Annot) (cards : List String),
      (annotGo ctx all rest acc cards).size = acc.size + rest.length := by
  intro rest
  induction rest with
  | nil => intro acc cards; rfl
  | cons p rest' ih =>
    obtain ⟨j, r⟩ := p
    intro acc cards
    show (annotGo ctx all rest' (annotStep ctx all j r acc cards).1
      (annotStep ctx all j r acc cards).2).size = _
    rw [ih, annotStep_fst_size, List.length_cons]
    omega

theorem annotGo_get_rest (ctx : AnnCtx) (all : List (Nat × Row)) :
    ∀ (rest : List (Nat × Row)) (acc : Array Annot) (cards : List String) (k : Nat),
      ((annotGo ctx all rest acc cards)[k]?).map annotRest
        = if k < acc.size then (acc[k]?).map annotRest
          else (rest[k - acc.size]?).map (fun p => annotRest (baseAnnot ctx p.1)) := by
  intro rest
  induction rest with
  | nil =>
    intro acc cards k
    simp only [annotGo]
    split
    · rfl
    · rename_i hk
      rw [Array.getElem?_eq_none_iff.mpr (by omega)]
      rfl
  | cons p rest' ih =>
    obtain ⟨j, r⟩ := p
    intro acc cards k
    show ((annotGo ctx all rest' (annotStep ctx all j r acc cards).1
      (annotStep ctx all j r acc cards).2)[k]?).map annotRest = _
    rw [ih, annotStep_fst_size, annotStep_get_rest, Array.getElem?_push]
    by_cases h1 : k < acc.size
    · rw [if_pos (by omega), if_neg (by omega), if_pos h1]
    · by_cases h2 : k = acc.size
      · subst h2
        rw [if_pos (by omega), if_pos rfl, if_neg (by omega)]
        simp
      · rw [if_neg (by omega), if_neg (by omega)]
        rw [show k - acc.size = (k - (acc.size + 1)) + 1 from by omega,
          List.getElem?_cons_succ]

/-- **C4 (amended).** For every annotated match, rows *before* the innings-2
split label always carry the `0` / `"Current Inn1"` sentinel — also in
matches that do reach innings 2 — and only rows at or after the split carry
the computed first-innings count / last occurrence; the over-level back-fill
never rewrites these fields. -/
theorem claim_C4_inn1_fields (st : HistState) (g : MatchGroup) (meta : MatchMeta) (j : Nat)
    (hm : metaGet? st.meta g.round_id = some meta) (hj : j < g.rows.length) :
    ((annotateMatch st g).get? j).map annotInn1
      = some (if isInn2At meta.inn2_start j then
          (.vInt ((priorMatches (bucketGet st.hist_inn1 meta.inn1_seq) meta.start_time).length : Nat),
           .vStr (lastOccur (priorMatches (bucketGet st.hist_inn1 meta.inn1_seq) meta.start_time)))
        else (.vInt 0, .vStr "Current Inn1")) := by
  have hr : g.rows[j]? = some (g.rows.get ⟨j, hj⟩) := List.getElem?_eq_getElem hj
  have henum : (irowsOf g)[j]? = some (j, g.rows.get ⟨j, hj⟩) := by
    rw [irowsOf, List.getElem?_enum, hr]
    rfl
  have hgo := annotGo_get_rest (annCtxOf st g meta) (irowsOf g) (irowsOf g) #[] [] j
  rw [if_neg (by simp)] at hgo
  simp only [show (#[] : Array Annot).size = 0 from rfl, Nat.sub_zero, henum,
    Option.map_some'] at hgo
  have htl : ((annotateMatch st g).get? j).map annotRest
      = some (annotRest (baseAnnot (annCtxOf st g meta) j)) := by
    simp only [annotateMatch, hm]
    rw [List.get?_eq_getElem?, ← Array.getElem?_eq_getElem?_toList, hgo]
  have hmap : ((annotateMatch st g).get? j).map annotInn1
      = some (annotInn1 (baseAnnot (annCtxOf st g meta) j)) := by
    cases hq : (annotateMatch st g).get? j with
    | none => rw [hq] at htl; simp at htl
    | some a =>
      rw [hq] at htl
      simp only [Option.map_some'] at htl ⊢
      have heq := Option.some.inj htl
      cases a
      cases hbase : baseAnnot (annCtxOf st g meta) j
      rw [hbase] at heq
      simp_all [annotRest, annotInn1]
  rw [hmap]
  simp only [baseAnnot, annotInn1, annCtxOf]
  split <;> rfl

/-- Witness for C4 at the concrete corpus `exGA`, `exGB`: row 0 of `exGB`
(before the split) carries the sentinel, row 1 (at the split) the computed
count 1 / last occurrence `"rA"`. -/
theorem claim_C4_witness :
    ((annotateMatch exHistC4 exGB).get? 0).map annotInn1
      = some (.vInt 0, .vStr "Current Inn1")
    ∧ ((annotateMatch exHistC4 exGB).get? 1).map annotInn1
      = some (.vInt 1, .vStr "rA") := by
  have h0 := claim_C4_inn1_fields exHistC4 exGB
    ⟨2, "c1", (0, 0), "c1|c2", some 1⟩ 0 (by decide) (by decide)
  have h1 := claim_C4_inn1_fields exHistC4 exGB
    ⟨2, "c1", (0, 0), "c1|c2", some 1⟩ 1 (by decide) (by decide)
  exact ⟨by rw [h0]; decide, by rw [h1]; decide⟩

/-- **C4 (counterexample).** `exGB` reaches innings 2 (split label 1), its
computed first-innings result is count 1 / `"rA"` (visible on row 1), yet its
innings-1 row 0 still carries `0` / `"Current Inn1"` — the claim's
"retroactively applies to innings-1 rows too" is false on the code. -/
theorem claim_C4_counterexample :
    inn2StartLabel exGB = some 1
    ∧ ((annotateMatch exHistC4 exGB).get? 1).map annotInn1 = some (.vInt 1, .vStr "rA")
    ∧ ((annotateMatch exHistC4 exGB).get? 0).map annotInn1
        = some (.vInt 0, .vStr "Current Inn1")
    ∧ ((PVal.vInt 0, PVal.vStr "Current Inn1") : PVal × PVal) ≠ (.vInt 1, .vStr "rA") := by
  decide

theorem assocGet?_cons (p : String × PVal) (row : RowAssoc) (k : String) :
    assocGet? (p :: row) k = if p.1 = k then some p.2 else assocGet? row k := by
  by_cases h : p.1 = k
  · simp [assocGet?, List.find?_cons_of_pos, h]
  · simp [assocGet?, List.find?_cons_of_neg, h]

theorem assocGet?_eq_none_of_not_mem (row : RowAssoc) (k : String)
    (h : ¬ k ∈ row.map Prod.fst) : assocGet? row k = none := by
  induction row with
  | nil => rfl
  | cons p row' ih =>
    simp only [List.map_cons, List.mem_cons, not_or] at h
    rw [assocGet?_cons, if_neg (fun hp => h.1 hp.symm)]
    exact ih h.2

theorem assocGet?_append_of_not_key (l1 l2 : RowAssoc) (k : String)
    (h : ¬ k ∈ l2.map Prod.fst) :
    assocGet? (l1 ++ l2) k = assocGet? l1 k := by
  induction l1 with
  | nil =>
    rw [List.nil_append]
    exact assocGet?_eq_none_of_not_mem l2 k h
  | cons p l1' ih =>
    rw [List.cons_append, assocGet?_cons, assocGet?_cons, ih]

theorem assocGet?_filter (q : String → Bool) (row : RowAssoc) (k : String)
    (hq : q k = true) :
    assocGet? (row.filter (fun p => q p.1)) k = assocGet? row k := by
  induction row with
  | nil => rfl
  | cons p row' ih =>
    by_cases hp : p.1 = k
    · rw [List.filter_cons_of_pos (by simp [hp, hq]), assocGet?_cons, assocGet?_cons, ih]
    · by_cases hqp : q p.1
      · rw [List.filter_cons_of_pos (by simp [hqp]), assocGet?_cons, if_neg hp,
          assocGet?_cons, if_neg hp, ih]
      · rw [List.filter_cons_of_neg (by simpa using hqp), assocGet?_cons, if_neg hp, ih]

theorem mapFst_filterKeys (q : String → Bool) (row : RowAssoc) :
    (row.filter (fun p => q p.1)).map Prod.fst = (row.map Prod.fst).filter q := by
  induction row with
  | nil => rfl
  | cons p row' ih =>
    by_cases hq : q p.1
    · rw [List.filter_cons_of_pos (by simpa using hq), List.map_cons, List.map_cons,
        List.filter_cons_of_pos (by simpa using hq), ih]
    · rw [List.filter_cons_of_neg (by simpa using hq), List.map_cons,
        List.filter_cons_of_neg (by simpa using hq), ih]

theorem assocGet?_mapReplace_self (row : RowAssoc) (k : String) (v : PVal)
    (h : row.any (fun p => p.1 = k) = true) :
    assocGet? (row.map (fun p => if p.1 = k then (k, v) else p)) k = some v := by
  induction row with
  | nil => simp at h
  | cons p row' ih =>
    rw [List.map_cons]
    by_cases hp : p.1 = k
    · rw [if_pos hp, assocGet?_cons, if_pos rfl]
    · rw [if_neg hp, assocGet?_cons, if_neg hp]
      rw [List.any_cons] at h
      simp only [hp, decide_eq_true_eq, false_or] at h
      exact ih (by simpa using h)

theorem assocGet?_mapReplace_ne (row : RowAssoc) (k : String) (v : PVal) (k' : String)
    (h : k ≠ k') :
    assocGet? (row.map (fun p => if p.1 = k then (k, v) else p)) k'
      = assocGet? row k' := by
  induction row with
  | nil => rfl
  | cons p row' ih =>
    rw [List.map_cons]
    by_cases hp : p.1 = k
    · rw [if_pos hp, assocGet?_cons, if_neg h, assocGet?_cons,
        if_neg (fun hpk => h (hp ▸ hpk)), ih]
    · rw [if_neg hp, assocGet?_cons, assocGet?_cons, ih]

theorem assocGet?_append_left_none (l1 l2 : RowAssoc) (k : String)
    (h : assocGet? l1 k = none) :
    assocGet? (l1 ++ l2) k = assocGet? l2 k := by
  induction l1 with
  | nil => rfl
  | cons p l1' ih =>
    rw [assocGet?_cons] at h
    by_cases hp : p.1 = k
    · rw [if_pos hp] at h
      exact absurd h (by simp)
    · rw [if_neg hp] at h
      rw [List.cons_append, assocGet?_cons, if_neg hp]
      exact ih h

theorem not_mem_keys_of_not_any (row : RowAssoc) (k : String)
    (hany : ¬ row.any (fun p => p.1 = k) = true) :
    ¬ k ∈ row.map Prod.fst := by
  intro hk
  apply hany
  obtain ⟨p, hp, hpk⟩ := List.mem_map.mp hk
  simp only [List.any_eq_true, decide_eq_true_eq]
  exact ⟨p, hp, hpk⟩

theorem assocGet?_assocSet_self (row : RowAssoc) (k : String) (v : PVal) :
    assocGet? (assocSet row k v) k = some v := by
  unfold assocSet
  split
  · rename_i hany
    exact assocGet?_mapReplace_self row k v (by simpa using hany)
  · rename_i hany
    rw [assocGet?_append_left_none _ _ _
      (assocGet?_eq_none_of_not_mem row k (not_mem_keys_of_not_any row k hany))]
    rw [assocGet?_cons, if_pos rfl]

theorem assocGet?_assocSet_ne (row : RowAssoc) (k : String) (v : PVal) (k' : String)
    (h : k ≠ k') :
    assocGet? (assocSet row k v) k' = assocGet? row k' := by
  unfold assocSet
  split
  · exact assocGet?_mapReplace_ne row k v k' h
  · rw [assocGet?_append_of_not_key _ _ _ (by simpa using fun hk => h hk.symm)]

theorem foldl_assocSet_not_key (ps : List (String × PVal)) :
    ∀ (row : RowAssoc) (k : String), ¬ k ∈ ps.map Prod.fst →
      assocGet? (ps.foldl (fun r p => assocSet r p.1 p.2) row) k = assocGet? row k := by
  induction ps with
  | nil => intro row k _; rfl
  | cons p ps' ih =>
    intro row k hk
    simp only [List.map_cons, List.mem_cons, not_or] at hk
    rw [List.foldl_cons, ih _ _ hk.2, assocGet?_assocSet_ne _ _ _ _ (fun h => hk.1 h.symm)]

theorem mapReplace_filter_false (q : String → Bool) (k : String) (v : PVal)
    (hk : q k = false) :
    ∀ row : RowAssoc,
      (row.map (fun p => if p.1 = k then (k, v) else p)).filter (fun p => q p.1)
        = row.filter (fun p => q p.1) := by
  intro row
  induction row with
  | nil => rfl
  | cons p row' ih =>
    rw [List.map_cons]
    by_cases hp : p.1 = k
    · rw [if_pos hp, List.filter_cons_of_neg (by simp [hk]),
        List.filter_cons_of_neg (by simp [hp, hk])]
      exact ih
    · by_cases hq : q p.1
      · rw [if_neg hp, List.filter_cons_of_pos (by simpa using hq),
          List.filter_cons_of_pos (by simpa using hq), ih]
      · rw [if_neg hp, List.filter_cons_of_neg (by simpa using hq),
          List.filter_cons_of_neg (by simpa using hq), ih]

theorem assocSet_filter_false (q : String → Bool) (row : RowAssoc) (k : String) (v : PVal)
    (hk : q k = false) :
    (assocSet row k v).filter (fun p => q p.1) = row.filter (fun p => q p.1) := by
  unfold assocSet
  split
  · exact mapReplace_filter_false q k v hk row
  · rw [List.filter_append, List.filter_cons_of_neg (by simp [hk]), List.filter_nil,
      List.append_nil]

theorem foldl_assocSet_filter_false (q : String → Bool) (ps : List (String × PVal)) :
    ∀ row : RowAssoc, (∀ p ∈ ps, q p.1 = false) →
      (ps.foldl (fun r p => assocSet r p.1 p.2) row).filter (fun p => q p.1)
        = row.filter (fun p => q p.1) := by
  induction ps with
  | nil => intro row _; rfl
  | cons p ps' ih =>
    intro row hq
    rw [List.foldl_cons, ih _ (fun x hx => hq x (List.mem_cons_of_mem p hx)),
      assocSet_filter_false _ _ _ _ (hq p (List.mem_cons_self p ps'))]

theorem filterMap_keys_foldl_assocSet (ps : List (String × PVal)) :
    ∀ row : RowAssoc, (ps.map Prod.fst).Nodup →
      (ps.map Prod.fst).filterMap (fun c =>
        (((ps.foldl (fun r p => assocSet r p.1 p.2) row).find? (fun p => p.1 = c)).map
          (fun p => (c, p.2)))) = ps := by
  induction ps with
  | nil => intro row _; rfl
  | cons p ps' ih =>
    intro row hnd
    rw [List.map_cons, List.filterMap_cons]
    rw [List.map_cons] at hnd
    have hnd1 : ¬ p.1 ∈ ps'.map Prod.fst := (List.nodup_cons.mp hnd).1
    have hnd2 : (ps'.map Prod.fst).Nodup := (List.nodup_cons.mp hnd).2
    have hget : assocGet? ((p :: ps').foldl (fun r p => assocSet r p.1 p.2) row) p.1
        = some p.2 := by
      rw [List.foldl_cons, foldl_assocSet_not_key ps' _ _ hnd1, assocGet?_assocSet_self]
    rw [assocGet?] at hget
    cases hfind : ((p :: ps').foldl (fun r p => assocSet r p.1 p.2) row).find?
        (fun q => q.1 = p.1) with
    | none => rw [hfind] at hget; simp at hget
    | some q =>
      rw [hfind] at hget
      simp only [Option.map_some'] at hget
      have hq2 : q.2 = p.2 := Option.some.inj hget
      rw [List.foldl_cons]
      simp only [Option.map_some']
      rw [hq2, ih (assocSet row p.1 p.2) hnd2]

theorem annotAssoc_map_fst (a : Annot) : (annotAssoc a).map Prod.fst = analyCols := rfl

theorem annotatedRow_eq (row : RowAssoc) (a : Annot) :
    annotatedRow row a
      = row.filter (fun p => !(analyCols.contains p.1)) ++ annotAssoc a := by
  unfold annotatedRow saveReorder applyAnnot
  dsimp only
  congr 1
  · exact foldl_assocSet_filter_false (fun c => !(analyCols.contains c)) (annotAssoc a) row
      (by
        intro p hp
        have hm : p.1 ∈ analyCols := by
          rw [← annotAssoc_map_fst a]
          exact List.mem_map_of_mem Prod.fst hp
        simp [List.contains, hm])
  · rw [show analyCols = (annotAssoc a).map Prod.fst from rfl]
    exact filterMap_keys_foldl_assocSet (annotAssoc a) row
      (by rw [annotAssoc_map_fst]; decide)

/-- **C9.** A record's trip through `analyze_patterns` and `save_excel`
preserves every pre-existing (non-reserved) field's value, and the output's
column order is exactly the original columns (minus the eight reserved
analysis names) followed by the eight analysis columns in the fixed order
over, first-innings, final-score, full-match (count before last-occurrence in
each pair). -/
theorem claim_C9_frame_and_columns (row : RowAssoc) (a : Annot) :
    (annotatedRow row a).map Prod.fst
      = ((row.map Prod.fst).filter (fun c => !(analyCols.contains c))) ++ analyCols
    ∧ (∀ k : String, ¬ k ∈ analyCols →
        assocGet? (annotatedRow row a) k = assocGet? row k) := by
  constructor
  · rw [annotatedRow_eq, List.map_append, annotAssoc_map_fst,
      mapFst_filterKeys (fun c => !(analyCols.contains c)) row]
  · intro k hk
    rw [annotatedRow_eq,
      assocGet?_append_of_not_key _ _ _ (by rw [annotAssoc_map_fst]; exact hk),
      assocGet?_filter (fun c => !(analyCols.contains c)) row k (by simp [List.contains, hk])]

/-- Witness for C9 at a concrete two-column record. -/
theorem claim_C9_witness :
    (annotatedRow [("Timestamp", .vInt 1), ("Card", .vStr "A")] annotNone).map Prod.fst
      = ((([("Timestamp", PVal.vInt 1), ("Card", PVal.vStr "A")] : RowAssoc).map
          Prod.fst).filter (fun c => !(analyCols.contains c))) ++ analyCols
    ∧ assocGet? (annotatedRow [("Timestamp", .vInt 1), ("Card", .vStr "A")] annotNone) "Card"
        = assocGet? [("Timestamp", PVal.vInt 1), ("Card", PVal.vStr "A")] "Card" :=
  have h := claim_C9_frame_and_columns
    [("Timestamp", .vInt 1), ("Card", .vStr "A")] annotNone
  ⟨h.1, h.2 "Card" (by decide)⟩

theorem bucketGet_bucketAppend {σ : Type} [DecidableEq σ] (h : Buckets σ)
    (k : σ) (v : Nat × String) (k' : σ) :
    bucketGet (bucketAppend h k v) k'
      = if k = k' then bucketGet h k' ++ [v] else bucketGet h k' := by
  induction h with
  | nil =>
    by_cases hk : k = k'
    · subst hk
      simp [bucketAppend, bucketGet]
    · have hk' : ¬ k' = k := fun h => hk h.symm
      simp [bucketAppend, bucketGet, hk, hk']
  | cons p rest ih =>
    obtain ⟨k0, vs⟩ := p
    by_cases h0 : k0 = k
    · subst h0
      by_cases hk : k0 = k' <;> simp [bucketAppend, bucketGet, hk]
    · by_cases hk : k0 = k'
      · subst hk
        have h0' : ¬ k = k0 := fun h => h0 h.symm
        simp [bucketAppend, h0, bucketGet, h0']
      · simp [bucketAppend, h0, bucketGet, hk, ih]

theorem bucketSortedLE_mono {σ : Type} [DecidableEq σ] {h : Buckets σ} {t t' : Nat}
    (hle : t ≤ t') (hs : bucketSortedLE h t) : bucketSortedLE h t' := by
  intro k
  exact ⟨(hs k).1, fun e he => Nat.le_trans ((hs k).2 e he) hle⟩

theorem bucketSortedLE_append {σ : Type} [DecidableEq σ] {h : Buckets σ} {t t' : Nat}
    (hs : bucketSortedLE h t) (hle : t ≤ t') (k : σ) (id : String) :
    bucketSortedLE (bucketAppend h k (t', id)) t' := by
  intro k'
  rw [bucketGet_bucketAppend]
  split
  · constructor
    · rw [List.pairwise_append]
      refine ⟨(hs k').1, List.pairwise_singleton _ _, ?_⟩
      intro a ha b hb
      rw [List.mem_singleton] at hb
      subst hb
      exact Nat.le_trans ((hs k').2 a ha) hle
    · intro e he
      rcases List.mem_append.mp he with h1 | h1
      · exact Nat.le_trans ((hs k').2 e h1) hle
      · rw [List.mem_singleton] at h1
        subst h1
        exact Nat.le_refl _
  · exact (bucketSortedLE_mono hle hs) k'

theorem bucketSortedLE_empty {σ : Type} [DecidableEq σ] (t : Nat) :
    bucketSortedLE ([] : Buckets σ) t := by
  intro k
  exact ⟨List.Pairwise.nil, fun e he => absurd he (List.not_mem_nil e)⟩

theorem foldl_bucketAppend_sortedLE {σ : Type} [DecidableEq σ] (t' : Nat)
    (l : List (σ × (Nat × String))) (hl : ∀ e ∈ l, e.2.1 = t') :
    ∀ h : Buckets σ, bucketSortedLE h t' →
      bucketSortedLE (l.foldl (fun h e => bucketAppend h e.1 e.2) h) t' := by
  induction l with
  | nil => intro h hs; exact hs
  | cons e rest ih =>
    intro h hs
    rw [List.foldl_cons]
    refine ih (fun x hx => hl x (List.mem_cons_of_mem e hx)) _ ?_
    have he : e.2.1 = t' := hl e (List.mem_cons_self e rest)
    have : bucketAppend h e.1 e.2 = bucketAppend h e.1 (t', e.2.2) := by
      rw [show e.2 = (t', e.2.2) from by rw [← he]]
    rw [this]
    exact bucketSortedLE_append hs (Nat.le_refl t') e.1 e.2.2

theorem foldl_appendOverEntry_hist_overs (l : List (String × (Nat × String))) :
    ∀ s : HistState,
      (l.foldl appendOverEntry s).hist_overs
        = l.foldl (fun h e => bucketAppend h e.1 e.2) s.hist_overs := by
  induction l with
  | nil => intro s; rfl
  | cons e rest ih => intro s; rw [List.foldl_cons, List.foldl_cons, ih]; rfl

theorem processMatch_hist_overs (hasTs : Bool) (now : Nat) (st : HistState)
    (g : MatchGroup) :
    (processMatch hasTs now st g).hist_overs
      = (overEntries g.round_id 1 (startTimeOf hasTs now g) (inn1CardsOf g)
          ++ overEntries g.round_id 2 (startTimeOf hasTs now g) (inn2CardsOf g)).foldl
          (fun h e => bucketAppend h e.1 e.2) st.hist_overs := by
  simp only [processMatch, List.foldl_append]
  split <;>
    simp only [foldl_appendOverEntry_hist_overs] <;>
    split <;>
    rfl

theorem overEntries_times (rid : String) (innNum : Nat) (t : Nat) (cards : List String) :
    ∀ e ∈ overEntries rid innNum t cards, e.2.1 = t := by
  intro e he
  simp only [overEntries, List.mem_map] at he
  obtain ⟨p, _, hp⟩ := he
  rw [← hp]

theorem processMatch_histSortedLE (hasTs : Bool) (now : Nat) (st : HistState)
    (g : MatchGroup) (t : Nat) (hs : histSortedLE st t)
    (hle : t ≤ startTimeOf hasTs now g) :
    histSortedLE (processMatch hasTs now st g) (startTimeOf hasTs now g) := by
  obtain ⟨hov, hin, hsc, hfu⟩ := hs
  refine ⟨?_, ?_, ?_, ?_⟩
  · rw [processMatch_hist_overs]
    refine foldl_bucketAppend_sortedLE _ _ ?_ _ (bucketSortedLE_mono hle hov)
    intro e he
    rcases List.mem_append.mp he with h1 | h1
    · exact overEntries_times _ _ _ _ e h1
    · exact overEntries_times _ _ _ _ e h1
  · rw [processMatch_hist_inn1]
    split
    · exact bucketSortedLE_append hin hle _ _
    · exact bucketSortedLE_mono hle hin
  · rw [processMatch_hist_scores]
    exact bucketSortedLE_append hsc hle _ _
  · rw [processMatch_hist_full]
    split
    · exact bucketSortedLE_append hfu hle _ _
    · exact bucketSortedLE_mono hle hfu

theorem buildHistFrom_sorted (hasTs : Bool) (now : Nat) :
    ∀ (corpus : List MatchGroup) (st : HistState) (t : Nat),
      histSortedLE st t →
      corpus.Pairwise (fun g1 g2 => startTimeOf hasTs now g1 ≤ startTimeOf hasTs now g2) →
      (∀ g ∈ corpus, t ≤ startTimeOf hasTs now g) →
      ∃ t', histSortedLE (corpus.foldl (processMatch hasTs now) st) t' := by
  intro corpus
  induction corpus with
  | nil => intro st t hs _ _; exact ⟨t, hs⟩
  | cons g rest ih =>
    intro st t hs hp hbound
    rw [List.foldl_cons]
    rcases List.pairwise_cons.mp hp with ⟨hg, hrest⟩
    exact ih (processMatch hasTs now st g) (startTimeOf hasTs now g)
      (processMatch_histSortedLE hasTs now st g t hs
        (hbound g (List.mem_cons_self g rest)))
      hrest hg

theorem buildHist_sorted (hasTs : Bool) (now : Nat) (corpus : List MatchGroup)
    (hscan : corpus.Pairwise
      (fun g1 g2 => startTimeOf hasTs now g1 ≤ startTimeOf hasTs now g2)) :
    ∃ t', histSortedLE (buildHist hasTs now corpus) t' := by
  refine buildHistFrom_sorted hasTs now corpus emptyHist 0 ?_ hscan (fun _ _ => Nat.zero_le _)
  exact ⟨bucketSortedLE_empty 0, bucketSortedLE_empty 0, bucketSortedLE_empty 0,
    bucketSortedLE_empty 0⟩

/-- **C2.** For every target and every granularity, the query over the built
history databases returns `count` = the number of included entries and
`last_occurrence_id` = the occurrence id of the included entry with the
greatest timestamp (ties broken by the last entry encountered in the
timestamp-ascending, then intra-match-ascending walk), or `"None"` when the
included set is empty — although the buckets store entries in corpus scan
order and the query never re-sorts, because for a corpus whose scan order is
nondecreasing in start time (what line 53–54's global
`sort_values(['Timestamp', 'Ball_Number'])` establishes) every bucket's
timestamps are nondecreasing. -/
theorem claim_C2_query_matches_spec (hasTs : Bool) (now : Nat) (corpus : List MatchGroup)
    (hscan : corpus.Pairwise
      (fun g1 g2 => startTimeOf hasTs now g1 ≤ startTimeOf hasTs now g2))
    (t0 : Nat) (rid : String) (ci oi : Int) :
    (∀ sig : String,
      lastOccur (priorMatches (bucketGet (buildHist hasTs now corpus).hist_inn1 sig) t0)
        = specGreatestLast
            (priorMatches (bucketGet (buildHist hasTs now corpus).hist_inn1 sig) t0))
    ∧ (∀ sig : String,
      lastOccur (priorMatches (bucketGet (buildHist hasTs now corpus).hist_full sig) t0)
        = specGreatestLast
            (priorMatches (bucketGet (buildHist hasTs now corpus).hist_full sig) t0))
    ∧ (∀ key : Int × Int,
      lastOccur (priorMatches (bucketGet (buildHist hasTs now corpus).hist_scores key) t0)
        = specGreatestLast
            (priorMatches (bucketGet (buildHist hasTs now corpus).hist_scores key) t0))
    ∧ (∀ sig : String,
      (overPriors (bucketGet (buildHist hasTs now corpus).hist_overs sig) t0 rid ci oi).length
        = ((bucketGet (buildHist hasTs now corpus).hist_overs sig).filter
            (overIncl t0 rid ci oi)).length
      ∧ ((overPriors (bucketGet (buildHist hasTs now corpus).hist_overs sig)
            t0 rid ci oi).getLast?).getD "None"
        = specGreatestLast ((bucketGet (buildHist hasTs now corpus).hist_overs sig).filter
            (overIncl t0 rid ci oi))) := by
  obtain ⟨t', hov, hin, hsc, hfu⟩ := buildHist_sorted hasTs now corpus hscan
  refine ⟨?_, ?_, ?_, ?_⟩
  · intro sig
    exact (querySpec_of_sorted_bucket _ t0 rid ci oi (hin sig).1).2.1
  · intro sig
    exact (querySpec_of_sorted_bucket _ t0 rid ci oi (hfu sig).1).2.1
  · intro key
    exact (querySpec_of_sorted_bucket _ t0 rid ci oi (hsc key).1).2.1
  · intro sig
    exact ⟨(querySpec_of_sorted_bucket _ t0 rid ci oi (hov sig).1).2.2.1,
      (querySpec_of_sorted_bucket _ t0 rid ci oi (hov sig).1).2.2.2⟩

/-- Witness for C2 at the concrete scan-sorted corpus `exGA`, `exGB`. -/
theorem claim_C2_witness :
    ([exGA, exGB].Pairwise (fun g1 g2 => startTimeOf true 0 g1 ≤ startTimeOf true 0 g2))
    ∧ lastOccur (priorMatches (bucketGet (buildHist true 0 [exGA, exGB]).hist_inn1 "c1") 2)
        = specGreatestLast
            (priorMatches (bucketGet (buildHist true 0 [exGA, exGB]).hist_inn1 "c1") 2) :=
  ⟨by decide,
   (claim_C2_query_matches_spec true 0 [exGA, exGB] (by decide) 2 "rB" 1 1).1 "c1"⟩

end Bet247
